import Mathlib

/-!
Verification of the hybrid-clocks core (`src/lib.rs`): the `Timestamp` value
type with its derived lexicographic order, the `do_observe` update algorithm,
the `Clock` state machine over the manual (deterministic) source, the
offset-limited `observe`, and the fixed 16-byte big-endian codec.

Machine integers are modelled as `Nat` with explicit wrap-around
(`% 2^32` / `% 2^64`) at the points where the Rust code performs `u32`/`u64`
arithmetic, matching release-mode (wrapping) semantics; the corresponding
debug-mode behaviour at those points is a panic.
-/

/-- `2^32`, the number of values of a `u32`. -/
def U32LIM : Nat := 4294967296

/-- `2^64`, the number of values of a `u64`. -/
def U64LIM : Nat := 18446744073709551616

/-- Rust `u32` addition of 1 (`count + 1`), which wraps in release mode. -/
def u32add1 (c : Nat) : Nat := (c + 1) % U32LIM

/-- Rust `u64` subtraction (`a - b`), which wraps on underflow in release mode. -/
def u64sub (a b : Nat) : Nat := (a + U64LIM - b) % U64LIM

/-- Rust `Ord::cmp` on a totally ordered type. -/
def cmpc {α : Type} [LinearOrder α] (a b : α) : Ordering :=
  if a < b then .lt else if a = b then .eq else .gt

/-- `Timestamp<T>` from `src/lib.rs`: epoch counter, wall-clock reading,
logical count, in declaration order. -/
structure Timestamp (α : Type) where
  epoch : Nat
  time : α
  count : Nat
deriving DecidableEq, Repr

/-- The derived `Ord` on `Timestamp`: Rust's `derive(Ord)` compares the fields
in declaration order (epoch, then time, then count), each via `Ord::cmp`,
taking the first non-equal result. -/
def timestampCmp {α : Type} [LinearOrder α] (a b : Timestamp α) : Ordering :=
  (cmpc a.epoch b.epoch).then ((cmpc a.time b.time).then (cmpc a.count b.count))

/-- Rust `<` on `Timestamp`, i.e. `cmp` returns `Less`. -/
def timestampLt {α : Type} [LinearOrder α] (a b : Timestamp α) : Prop :=
  timestampCmp a b = .lt

/-- Rust `<=` on `Timestamp`, i.e. `cmp` does not return `Greater`. -/
def timestampLe {α : Type} [LinearOrder α] (a b : Timestamp α) : Prop :=
  timestampCmp a b ≠ .gt

/-- `Clock::do_observe` from `src/lib.rs` (lines 147-165), as a pure function
from the previous `last_observed` value `lp` and the observation to the new
`last_observed` value.  The `u32` counter increments wrap as in the source's
release build. -/
def do_observe {α : Type} [LinearOrder α] (lp obs : Timestamp α) : Timestamp α :=
  match cmpc lp.epoch obs.epoch, cmpc lp.time obs.time, cmpc lp.count obs.count with
  | .lt, _, _ => obs
  | .eq, .lt, _ => obs
  | .eq, .eq, .lt => { lp with count := u32add1 obs.count }
  | _, _, _ => { lp with count := u32add1 lp.count }

/-- The error enum of `src/lib.rs`. -/
inductive Error where
  | OffsetTooGreat
deriving DecidableEq, Repr

/-- The `Clock<ManualClock>` state: the manual source's cell, the epoch, the
last produced timestamp, and the optional maximum offset. -/
structure Clock where
  src : Nat
  epoch : Nat
  last_observed : Timestamp Nat
  max_offset : Option Nat
deriving DecidableEq, Repr

/-- `Clock::manual(t)` = `Clock::new(ManualClock::new(t))`: seed
`last_observed` from one source read, counter 0, epoch 0, no max offset. -/
def Clock.manual (t : Nat) : Clock :=
  { src := t, epoch := 0, last_observed := { epoch := 0, time := t, count := 0 }, max_offset := none }

/-- `Clock::new_with_max_diff(ManualClock::new(t), diff)`. -/
def Clock.new_with_max_diff (t diff : Nat) : Clock :=
  { src := t, epoch := 0, last_observed := { epoch := 0, time := t, count := 0 },
    max_offset := some diff }

/-- `Clock::set_time` (manual source only). -/
def Clock.set_time (c : Clock) (t : Nat) : Clock := { c with src := t }

/-- `Clock::set_epoch`. -/
def Clock.set_epoch (c : Clock) (e : Nat) : Clock := { c with epoch := e }

/-- `Clock::read_pt`: a fresh physical reading wrapped as a timestamp. -/
def Clock.read_pt (c : Clock) : Timestamp Nat :=
  { epoch := c.epoch, time := c.src, count := 0 }

/-- `Clock::verify_offset` (lines 187-200): with a configured max offset,
compute `msg.time - pt.time` by `u64` subtraction and fail with
`OffsetTooGreat` when the difference is strictly greater than the maximum. -/
def Clock.verify_offset (c : Clock) (pt msg : Timestamp Nat) : Except Error Unit :=
  match c.max_offset with
  | some mx => if mx < u64sub msg.time pt.time then .error .OffsetTooGreat else .ok ()
  | none => .ok ()

/-- `Clock::now` (lines 141-145): fold a fresh physical reading into
`last_observed` and return the new value. -/
def Clock.now (c : Clock) : Timestamp Nat × Clock :=
  let nl := do_observe c.last_observed c.read_pt
  (nl, { c with last_observed := nl })

/-- `Clock::observe` (lines 172-177): verify the offset against a fresh
physical reading, then fold the message in; on error the clock is returned
unchanged (the `try!` returns before `do_observe`). -/
def Clock.observe (c : Clock) (msg : Timestamp Nat) : Except Error Unit × Clock :=
  match c.verify_offset c.read_pt msg with
  | .error e => (.error e, c)
  | .ok _ => (.ok (), { c with last_observed := do_observe c.last_observed msg })

/-- One externally invokable operation on a `Clock` with a manual source. -/
inductive Op where
  | set_time (t : Nat)
  | now
  | observe (msg : Timestamp Nat)
deriving DecidableEq, Repr

/-- An observable event of a run: a timestamp returned by `now()`, or a
message accepted (without error) by `observe()`. -/
inductive Ev where
  | output (t : Timestamp Nat)
  | accepted (t : Timestamp Nat)
deriving DecidableEq, Repr

/-- The timestamp carried by an event. -/
def Ev.ts : Ev → Timestamp Nat
  | .output t => t
  | .accepted t => t

/-- Execute one operation, returning the new clock and the emitted events. -/
def stepClock (c : Clock) : Op → Clock × List Ev
  | .set_time t => (c.set_time t, [])
  | .now => ((c.now).2, [.output (c.now).1])
  | .observe msg =>
    match (c.observe msg).1 with
    | .error _ => ((c.observe msg).2, [])
    | .ok _ => ((c.observe msg).2, [.accepted msg])

/-- The event trace of a run. -/
def runTrace (c : Clock) : List Op → List Ev
  | [] => []
  | op :: rest => (stepClock c op).2 ++ runTrace (stepClock c op).1 rest

/-- The `u32` counter increment performed by `do_observe` on these arguments
stays within `u32` range (release build does not wrap, debug build does not
panic). -/
def incOK (lp obs : Timestamp Nat) : Bool :=
  match cmpc lp.epoch obs.epoch, cmpc lp.time obs.time, cmpc lp.count obs.count with
  | .lt, _, _ => true
  | .eq, .lt, _ => true
  | .eq, .eq, .lt => decide (obs.count + 1 < U32LIM)
  | _, _, _ => decide (lp.count + 1 < U32LIM)

/-- No counter increment performed during this operation overflows `u32`. -/
def stepOK (c : Clock) : Op → Bool
  | .set_time _ => true
  | .now => incOK c.last_observed c.read_pt
  | .observe msg =>
    match c.verify_offset c.read_pt msg with
    | .error _ => true
    | .ok _ => incOK c.last_observed msg

/-- No counter increment performed anywhere in the run overflows `u32`. -/
def runOK (c : Clock) : List Op → Bool
  | [] => true
  | op :: rest => stepOK c op && runOK (stepClock c op).1 rest

/-- The state a `Clock` over a manual source is constructed with:
`Clock::new`/`Clock::manual` when `mo = none`, `Clock::new_with_max_diff`
when `mo = some d`. -/
def clockInit (t0 : Nat) (mo : Option Nat) : Clock :=
  { src := t0, epoch := 0, last_observed := { epoch := 0, time := t0, count := 0 },
    max_offset := mo }

/-- Big-endian byte representation: `toBEBytes w x` is `x` written as `w`
bytes, most significant first, as Rust's `to_be_bytes` produces for a value
of width `w` bytes. -/
def toBEBytes : Nat → Nat → List Nat
  | 0, _ => []
  | w + 1, x => toBEBytes w (x / 256) ++ [x % 256]

/-- Rust's `from_be_bytes`: read a big-endian byte string as an integer. -/
def fromBEBytes (l : List Nat) : Nat := l.foldl (fun acc b => acc * 256 + b) 0

/-- `Timestamp::to_bytes` (lines 209-215): 16 bytes, big-endian
`epoch:u32 ‖ time:u64 ‖ count:u32`. -/
def Timestamp.to_bytes (t : Timestamp Nat) : List Nat :=
  toBEBytes 4 t.epoch ++ toBEBytes 8 t.time ++ toBEBytes 4 t.count

/-- `Timestamp::from_bytes` (lines 223-232): split the 16 bytes as 4 ‖ 8 ‖ 4
and read each group big-endian. -/
def Timestamp.from_bytes (b : List Nat) : Timestamp Nat :=
  { epoch := fromBEBytes (b.take 4)
    time := fromBEBytes ((b.drop 4).take 8)
    count := fromBEBytes (b.drop 12) }

/-- Rust's `Ord` on byte slices: unsigned lexicographic comparison element by
element, shorter prefix first. -/
def lexCompare : List Nat → List Nat → Ordering
  | [], [] => .eq
  | [], _ :: _ => .lt
  | _ :: _, [] => .gt
  | x :: xs, y :: ys => (cmpc x y).then (lexCompare xs ys)

/-- The order the specification describes (§3): strictly lexicographic on the
triple `(epoch, time, count)`. -/
def lexLtSpec (a b : Timestamp Nat) : Prop :=
  a.epoch < b.epoch ∨
    (a.epoch = b.epoch ∧ (a.time < b.time ∨ (a.time = b.time ∧ a.count < b.count)))

/-- Modelled from the spec (§7): the update algorithm as it would behave with
exact, non-overflowing counter arithmetic (the checked/saturating increments
the spec prescribes never being reached by a wrap). -/
def do_observe_exact (lp obs : Timestamp Nat) : Timestamp Nat :=
  match cmpc lp.epoch obs.epoch, cmpc lp.time obs.time, cmpc lp.count obs.count with
  | .lt, _, _ => obs
  | .eq, .lt, _ => obs
  | .eq, .eq, .lt => { lp with count := obs.count + 1 }
  | _, _, _ => { lp with count := lp.count + 1 }

theorem ordering_eq_then (o : Ordering) : Ordering.eq.then o = o := rfl

theorem ordering_lt_then (o : Ordering) : Ordering.lt.then o = .lt := rfl

theorem ordering_gt_then (o : Ordering) : Ordering.gt.then o = .gt := rfl

theorem cmpc_cases (a b : Nat) :
    (cmpc a b = .lt ∧ a < b) ∨ (cmpc a b = .eq ∧ a = b) ∨ (cmpc a b = .gt ∧ b < a) := by
  unfold cmpc
  split_ifs with h1 h2
  · simp_all
  · simp_all
  · simp_all
    omega

theorem timestampCmp_eq_lt_iff (a b : Timestamp Nat) :
    timestampCmp a b = .lt ↔ lexLtSpec a b := by
  unfold timestampCmp lexLtSpec
  rcases cmpc_cases a.epoch b.epoch with ⟨h, h2⟩ | ⟨h, h2⟩ | ⟨h, h2⟩ <;>
    rcases cmpc_cases a.time b.time with ⟨g, g2⟩ | ⟨g, g2⟩ | ⟨g, g2⟩ <;>
      rcases cmpc_cases a.count b.count with ⟨f, f2⟩ | ⟨f, f2⟩ | ⟨f, f2⟩ <;>
        rw [h, g, f] <;>
          simp only [ordering_eq_then, ordering_lt_then, ordering_gt_then] <;>
            simp <;> omega

theorem timestampCmp_eq_eq_iff (a b : Timestamp Nat) :
    timestampCmp a b = .eq ↔ a = b := by
  unfold timestampCmp
  rcases cmpc_cases a.epoch b.epoch with ⟨h, h2⟩ | ⟨h, h2⟩ | ⟨h, h2⟩ <;>
    rcases cmpc_cases a.time b.time with ⟨g, g2⟩ | ⟨g, g2⟩ | ⟨g, g2⟩ <;>
      rcases cmpc_cases a.count b.count with ⟨f, f2⟩ | ⟨f, f2⟩ | ⟨f, f2⟩ <;>
        rw [h, g, f] <;>
          simp only [ordering_eq_then, ordering_lt_then, ordering_gt_then] <;>
            cases a <;> cases b <;> simp_all <;> omega

theorem timestampCmp_eq_gt_iff (a b : Timestamp Nat) :
    timestampCmp a b = .gt ↔ lexLtSpec b a := by
  unfold timestampCmp lexLtSpec
  rcases cmpc_cases a.epoch b.epoch with ⟨h, h2⟩ | ⟨h, h2⟩ | ⟨h, h2⟩ <;>
    rcases cmpc_cases a.time b.time with ⟨g, g2⟩ | ⟨g, g2⟩ | ⟨g, g2⟩ <;>
      rcases cmpc_cases a.count b.count with ⟨f, f2⟩ | ⟨f, f2⟩ | ⟨f, f2⟩ <;>
        rw [h, g, f] <;>
          simp only [ordering_eq_then, ordering_lt_then, ordering_gt_then] <;>
            simp <;> omega

theorem timestampLt_iff (a b : Timestamp Nat) :
    timestampLt a b ↔ lexLtSpec a b := timestampCmp_eq_lt_iff a b

theorem timestampLe_iff (a b : Timestamp Nat) :
    timestampLe a b ↔ lexLtSpec a b ∨ a = b := by
  unfold timestampLe
  constructor
  · intro h
    rcases ho : timestampCmp a b with _ | _ | _
    · exact Or.inl ((timestampCmp_eq_lt_iff a b).mp ho)
    · exact Or.inr ((timestampCmp_eq_eq_iff a b).mp ho)
    · exact absurd ho h
  · rintro (h | h) hc
    · have := (timestampCmp_eq_gt_iff a b).mp hc
      have h2 := h
      unfold lexLtSpec at this h2
      omega
    · rw [(timestampCmp_eq_eq_iff a b).mpr h] at hc
      exact Ordering.noConfusion hc

theorem tsLt_trans {a b c : Timestamp Nat} (h1 : timestampLt a b) (h2 : timestampLt b c) :
    timestampLt a c := by
  rw [timestampLt_iff] at *
  unfold lexLtSpec at *
  omega

theorem tsLt_of_le_of_lt {a b c : Timestamp Nat} (h1 : timestampLe a b) (h2 : timestampLt b c) :
    timestampLt a c := by
  rw [timestampLe_iff] at h1
  rcases h1 with h1 | rfl
  · rw [timestampLt_iff] at *
    unfold lexLtSpec at *
    omega
  · exact h2

theorem do_observe_progress (lp obs : Timestamp Nat) (h : incOK lp obs = true) :
    timestampLt lp (do_observe lp obs) ∧ timestampLe obs (do_observe lp obs) := by
  unfold do_observe incOK at *
  rcases cmpc_cases lp.epoch obs.epoch with ⟨hE, hE2⟩ | ⟨hE, hE2⟩ | ⟨hE, hE2⟩ <;>
    rcases cmpc_cases lp.time obs.time with ⟨hT, hT2⟩ | ⟨hT, hT2⟩ | ⟨hT, hT2⟩ <;>
      rcases cmpc_cases lp.count obs.count with ⟨hC, hC2⟩ | ⟨hC, hC2⟩ | ⟨hC, hC2⟩ <;>
        rw [hE, hT, hC] at h ⊢ <;>
          simp only [decide_eq_true_eq, U32LIM] at h <;>
            constructor <;>
              simp only [timestampLt_iff, timestampLe_iff, lexLtSpec, u32add1, U32LIM] <;>
                cases lp <;> cases obs <;> simp_all <;> omega

theorem stepOK_now_incOK {c : Clock} (h : stepOK c .now = true) :
    incOK c.last_observed c.read_pt = true := h

theorem runTrace_output_gt (ops : List Op) : ∀ (c : Clock), runOK c ops = true →
    ∀ t2, Ev.output t2 ∈ runTrace c ops → timestampLt c.last_observed t2 := by
  induction ops with
  | nil =>
    intro c _ t2 hmem
    simp [runTrace] at hmem
  | cons op rest ih =>
    intro c h t2 hmem
    rw [runOK, Bool.and_eq_true] at h
    obtain ⟨h1, h2⟩ := h
    rw [runTrace] at hmem
    cases op with
    | set_time t =>
      simp only [stepClock, List.nil_append] at hmem h2
      have := ih _ h2 t2 hmem
      simpa [Clock.set_time] using this
    | now =>
      simp only [stepClock, List.singleton_append] at hmem h2
      have hinc : incOK c.last_observed c.read_pt = true := stepOK_now_incOK h1
      have hstep : timestampLt c.last_observed (do_observe c.last_observed c.read_pt) :=
        (do_observe_progress _ _ hinc).1
      rcases List.mem_cons.mp hmem with hm | hm
      · have ht2 : t2 = (c.now).1 := by
          simpa [Ev.output.injEq] using hm
        subst ht2
        simpa [Clock.now] using hstep
      · have := ih _ h2 t2 hm
        have hlast : (c.now).2.last_observed = do_observe c.last_observed c.read_pt := by
          simp [Clock.now]
        rw [hlast] at this
        exact tsLt_trans hstep this
    | observe msg =>
      rcases hv : c.verify_offset c.read_pt msg with e | u
      · simp only [stepClock, Clock.observe, hv, List.nil_append] at hmem h2
        exact ih _ h2 t2 hmem
      · simp only [stepClock, Clock.observe, hv, List.singleton_append] at hmem h2
        have hinc : incOK c.last_observed msg = true := by
          simpa [stepOK, hv] using h1
        have hstep : timestampLt c.last_observed (do_observe c.last_observed msg) :=
          (do_observe_progress _ _ hinc).1
        rcases List.mem_cons.mp hmem with hm | hm
        · exact absurd hm (by simp)
        · have := ih _ h2 t2 hm
          simp only at this
          exact tsLt_trans hstep this

theorem runTrace_pairwise (ops : List Op) : ∀ (c : Clock), runOK c ops = true →
    List.Pairwise (fun e1 e2 => ∀ t2, e2 = Ev.output t2 → timestampLt e1.ts t2)
      (runTrace c ops) := by
  induction ops with
  | nil =>
    intro c _
    simp [runTrace]
  | cons op rest ih =>
    intro c h
    rw [runOK, Bool.and_eq_true] at h
    obtain ⟨h1, h2⟩ := h
    rw [runTrace]
    cases op with
    | set_time t =>
      simp only [stepClock, List.nil_append]
      exact ih _ h2
    | now =>
      simp only [stepClock, List.singleton_append]
      refine List.pairwise_cons.mpr ⟨?_, ih _ h2⟩
      intro e2 he2 t2 ht2
      subst ht2
      have hout := runTrace_output_gt rest _ h2 t2 he2
      exact hout
    | observe msg =>
      rcases hv : c.verify_offset c.read_pt msg with e | u
      · simp only [stepClock, Clock.observe, hv, List.nil_append] at h2 ⊢
        exact ih _ h2
      · simp only [stepClock, Clock.observe, hv, List.singleton_append] at h2 ⊢
        refine List.pairwise_cons.mpr ⟨?_, ih _ h2⟩
        intro e2 he2 t2 ht2
        subst ht2
        have hout := runTrace_output_gt rest _ h2 t2 he2
        simp only at hout
        have hinc : incOK c.last_observed msg = true := by
          simpa [stepOK, hv] using h1
        have hle : timestampLe msg (do_observe c.last_observed msg) :=
          (do_observe_progress _ _ hinc).2
        exact tsLt_of_le_of_lt hle hout

/-- C1: for every sequence of `now()`/`observe()` calls on a single manually
sourced `Clock` (constructed by `Clock::new`/`Clock::manual` or
`Clock::new_with_max_diff`), interleaved with arbitrary source-time changes,
and provided no `u32` counter increment in the run overflows (`runOK`), every
timestamp returned by `now()` is strictly greater than every earlier `now()`
output and every earlier message accepted by `observe()` — even when the
source's reading decreases between calls. -/
theorem clock_outputs_monotonic (t0 : Nat) (mo : Option Nat) (ops : List Op)
    (h : runOK (clockInit t0 mo) ops = true) :
    List.Pairwise (fun e1 e2 => ∀ t2, e2 = Ev.output t2 → timestampLt e1.ts t2)
      (runTrace (clockInit t0 mo) ops) :=
  runTrace_pairwise ops (clockInit t0 mo) h

/-- C1 (counterexample to the unconditional claim): observing a message whose
count is `u32::MAX` wraps the counter, and the very next `now()` returns a
timestamp smaller than the accepted message. -/
theorem clock_monotonic_cex :
    ¬ List.Pairwise (fun e1 e2 => ∀ t2, e2 = Ev.output t2 → timestampLt e1.ts t2)
      (runTrace (clockInit 0 none)
        [Op.observe { epoch := 0, time := 0, count := 4294967295 }, Op.now]) := by
  intro h
  have htr : runTrace (clockInit 0 none)
      [Op.observe { epoch := 0, time := 0, count := 4294967295 }, Op.now]
      = [Ev.accepted { epoch := 0, time := 0, count := 4294967295 },
         Ev.output { epoch := 0, time := 0, count := 1 }] := by decide
  rw [htr] at h
  obtain ⟨h1, _⟩ := List.pairwise_cons.mp h
  have h3 := h1 _ (List.mem_cons_self _ _) { epoch := 0, time := 0, count := 1 } rfl
  have h4 : timestampCmp { epoch := 0, time := 0, count := 4294967295 }
      { epoch := 0, time := 0, count := 1 } = .lt := h3
  exact absurd h4 (by decide)

/-- C1 witness: a concrete overflow-free run with a backwards-moving source,
on which the monotonicity theorem applies. -/
theorem clock_outputs_monotonic_witness :
    runOK (clockInit 5 none)
      [Op.now, Op.set_time 3, Op.now, Op.observe { epoch := 0, time := 4, count := 7 }, Op.now]
      = true ∧
    List.Pairwise (fun e1 e2 => ∀ t2, e2 = Ev.output t2 → timestampLt e1.ts t2)
      (runTrace (clockInit 5 none)
        [Op.now, Op.set_time 3, Op.now, Op.observe { epoch := 0, time := 4, count := 7 }, Op.now]) :=
  ⟨by decide, clock_outputs_monotonic 5 none
    [Op.now, Op.set_time 3, Op.now, Op.observe { epoch := 0, time := 4, count := 7 }, Op.now]
    (by decide)⟩

theorem incOK_of_bounds (lp obs : Timestamp Nat)
    (h1 : lp.count + 1 < U32LIM) (h2 : obs.count + 1 < U32LIM) :
    incOK lp obs = true := by
  unfold incOK
  rcases cmpc_cases lp.epoch obs.epoch with ⟨hE, _⟩ | ⟨hE, _⟩ | ⟨hE, _⟩ <;>
    rcases cmpc_cases lp.time obs.time with ⟨hT, _⟩ | ⟨hT, _⟩ | ⟨hT, _⟩ <;>
      rcases cmpc_cases lp.count obs.count with ⟨hC, _⟩ | ⟨hC, _⟩ | ⟨hC, _⟩ <;>
        rw [hE, hT, hC] <;> simp [h1, h2]

/-- C2 (counterexample to the unconditional claim): in the adopt-wholesale
branch (`obs` strictly ahead of `lp` on `(epoch, time)`), `do_observe`
returns `obs` itself, which is not strictly greater than `obs`. -/
theorem do_observe_adopt_cex :
    do_observe { epoch := 0, time := 0, count := 0 }
        { epoch := 0, time := (1 : Nat), count := 0 }
      = { epoch := 0, time := 1, count := 0 } ∧
    ¬ timestampCmp { epoch := 0, time := (1 : Nat), count := 0 }
        (do_observe { epoch := 0, time := 0, count := 0 }
          { epoch := 0, time := (1 : Nat), count := 0 }) = .lt := by
  constructor
  · decide
  · decide

/-- C2 (amended): provided neither counter increment overflows `u32`, the
timestamp computed by `do_observe` is strictly greater than `lp` and
greater than or equal to `obs` under the lexicographic total order — the
adopt-wholesale branch returns `obs` itself, so equality with `obs` occurs
exactly there. -/
theorem do_observe_dominates (lp obs : Timestamp Nat)
    (h1 : lp.count + 1 < U32LIM) (h2 : obs.count + 1 < U32LIM) :
    timestampLt lp (do_observe lp obs) ∧ timestampLe obs (do_observe lp obs) :=
  do_observe_progress lp obs (incOK_of_bounds lp obs h1 h2)

/-- C2 witness. -/
theorem do_observe_dominates_witness :
    ({ epoch := 0, time := 3, count := 4 } : Timestamp Nat).count + 1 < U32LIM ∧
    ({ epoch := 0, time := 3, count := 9 } : Timestamp Nat).count + 1 < U32LIM ∧
    (timestampLt { epoch := 0, time := 3, count := 4 }
        (do_observe { epoch := 0, time := 3, count := 4 } { epoch := 0, time := 3, count := 9 }) ∧
      timestampLe { epoch := 0, time := 3, count := 9 }
        (do_observe { epoch := 0, time := 3, count := 4 } { epoch := 0, time := 3, count := 9 })) :=
  ⟨by decide, by decide,
    do_observe_dominates { epoch := 0, time := 3, count := 4 } { epoch := 0, time := 3, count := 9 }
      (by decide) (by decide)⟩

/-- C8 (counterexample to the claim that the counter increments are checked
or saturating): at `count = u32::MAX` the increment performed by
`do_observe` wraps silently to 0, so the result collapses back to `lp`. -/
theorem counter_increment_wraps_cex :
    u32add1 4294967295 = 0 ∧
    do_observe { epoch := 0, time := (0 : Nat), count := 0 }
        { epoch := 0, time := 0, count := 4294967295 }
      = { epoch := 0, time := 0, count := 0 } := by
  constructor
  · decide
  · decide

/-- C8 (amended): the increments are plain wrapping `u32` additions, but for
all inputs whose counts are below `u32::MAX` no overflow occurs and
`do_observe` agrees with the exact (non-wrapping) update algorithm. -/
theorem do_observe_no_overflow (lp obs : Timestamp Nat)
    (h1 : lp.count + 1 < U32LIM) (h2 : obs.count + 1 < U32LIM) :
    do_observe lp obs = do_observe_exact lp obs := by
  unfold do_observe do_observe_exact
  rcases cmpc_cases lp.epoch obs.epoch with ⟨hE, _⟩ | ⟨hE, _⟩ | ⟨hE, _⟩ <;>
    rcases cmpc_cases lp.time obs.time with ⟨hT, _⟩ | ⟨hT, _⟩ | ⟨hT, _⟩ <;>
      rcases cmpc_cases lp.count obs.count with ⟨hC, _⟩ | ⟨hC, _⟩ | ⟨hC, _⟩ <;>
        rw [hE, hT, hC] <;>
          simp [u32add1, Nat.mod_eq_of_lt h1, Nat.mod_eq_of_lt h2]

/-- C8 witness. -/
theorem do_observe_no_overflow_witness :
    ({ epoch := 2, time := 7, count := 1 } : Timestamp Nat).count + 1 < U32LIM ∧
    ({ epoch := 2, time := 7, count := 6 } : Timestamp Nat).count + 1 < U32LIM ∧
    do_observe { epoch := 2, time := 7, count := 1 } { epoch := 2, time := 7, count := 6 }
      = do_observe_exact { epoch := 2, time := 7, count := 1 } { epoch := 2, time := 7, count := 6 } :=
  ⟨by decide, by decide,
    do_observe_no_overflow { epoch := 2, time := 7, count := 1 }
      { epoch := 2, time := 7, count := 6 } (by decide) (by decide)⟩

/-- C9: the derived total order on `Timestamp` is lexicographic on the triple
`(epoch, time, count)`; two timestamps compare equal only if all three fields
are equal; and a timestamp at epoch 1 orders strictly after every timestamp
at epoch 0 regardless of the time and count values. -/
theorem timestamp_order_lexicographic (a b : Timestamp Nat) :
    (timestampCmp a b = .eq ↔ a = b) ∧
    (timestampCmp a b = .lt ↔ lexLtSpec a b) ∧
    (a.epoch = 0 → b.epoch = 1 → timestampCmp a b = .lt) :=
  ⟨timestampCmp_eq_eq_iff a b, timestampCmp_eq_lt_iff a b,
    fun h0 h1 => (timestampCmp_eq_lt_iff a b).mpr (Or.inl (by omega))⟩

/-- C9 witness: epoch dominance at a concrete pair with a huge time at
epoch 0. -/
theorem timestamp_order_lexicographic_witness :
    timestampCmp { epoch := 0, time := (999999999999 : Nat), count := 4294967295 }
      { epoch := 1, time := 0, count := 0 } = .lt :=
  (timestamp_order_lexicographic
    { epoch := 0, time := (999999999999 : Nat), count := 4294967295 }
    { epoch := 1, time := 0, count := 0 }).2.2 rfl rfl

/-- C7: whenever `observe` returns the `OffsetTooGreat` error, the clock's
epoch and `last_observed` timestamp are exactly what they were before the
call (in fact the whole state is unchanged). -/
theorem observe_error_leaves_clock_unchanged (c : Clock) (msg : Timestamp Nat)
    (h : (c.observe msg).1 = .error .OffsetTooGreat) :
    (c.observe msg).2.epoch = c.epoch ∧ (c.observe msg).2.last_observed = c.last_observed := by
  unfold Clock.observe at *
  rcases hv : c.verify_offset c.read_pt msg with e | u
  · simp [hv]
  · rw [hv] at h
    simp at h

/-- C7 witness. -/
theorem observe_error_leaves_clock_unchanged_witness :
    ((Clock.new_with_max_diff 0 10).observe { epoch := 0, time := 11, count := 0 }).1
      = .error .OffsetTooGreat ∧
    (((Clock.new_with_max_diff 0 10).observe { epoch := 0, time := 11, count := 0 }).2.epoch
        = (Clock.new_with_max_diff 0 10).epoch ∧
      ((Clock.new_with_max_diff 0 10).observe { epoch := 0, time := 11, count := 0 }).2.last_observed
        = (Clock.new_with_max_diff 0 10).last_observed) :=
  ⟨rfl,
    observe_error_leaves_clock_unchanged (Clock.new_with_max_diff 0 10)
      { epoch := 0, time := 11, count := 0 } rfl⟩

/-- C4: with `max_offset = 10` and the manual source at 0, observing
`{time:11}` fails with `OffsetTooGreat`; observing `{time:1}` on the
unchanged clock succeeds; and after the source advances to 1, observing
`{time:11}` succeeds, the delta of exactly `max_offset` being admitted. -/
theorem offset_limiter_scenario :
    ((Clock.new_with_max_diff 0 10).observe { epoch := 0, time := 11, count := 0 }).1
      = .error .OffsetTooGreat ∧
    ((((Clock.new_with_max_diff 0 10).observe
          { epoch := 0, time := 11, count := 0 }).2).observe
        { epoch := 0, time := 1, count := 0 }).1 = .ok () ∧
    ((((((Clock.new_with_max_diff 0 10).observe
              { epoch := 0, time := 11, count := 0 }).2).observe
            { epoch := 0, time := 1, count := 0 }).2.set_time 1).observe
        { epoch := 0, time := 11, count := 0 }).1 = .ok () := by
  refine ⟨rfl, rfl, rfl⟩

/-- C3: the repository's own regression test `should_observe_past_timestamp`
(with the manual source at 10, `max_offset = 2`) requires observing the past
timestamp `{time:9}` to succeed, but `verify_offset` computes
`msg.time - pt.time` as an unsigned subtraction, which underflows when the
message is behind the local clock; the wrapped difference `2^64 - 1` exceeds
any maximum offset, so the message is rejected with `OffsetTooGreat` (in a
debug build the subtraction panics instead). -/
theorem observe_past_timestamp_rejected :
    u64sub 9 10 = U64LIM - 1 ∧
    ((Clock.new_with_max_diff 10 2).observe { epoch := 0, time := 9, count := 0 }).1
      = .error .OffsetTooGreat :=
  ⟨rfl, rfl⟩

theorem ordering_then_assoc (a b c : Ordering) :
    (a.then b).then c = a.then (b.then c) := by
  cases a <;> rfl

theorem ordering_then_eq_right (o : Ordering) : o.then .eq = o := by
  cases o <;> rfl

theorem toBEBytes_length (w x : Nat) : (toBEBytes w x).length = w := by
  induction w generalizing x with
  | zero => rfl
  | succ w ih => simp [toBEBytes, ih]

theorem toBEBytes_bytes_lt (w x : Nat) : ∀ d ∈ toBEBytes w x, d < 256 := by
  induction w generalizing x with
  | zero => simp [toBEBytes]
  | succ w ih =>
    intro d hd
    simp only [toBEBytes, List.mem_append, List.mem_singleton] at hd
    rcases hd with hd | rfl
    · exact ih _ d hd
    · omega

theorem fromBEBytes_concat (l : List Nat) (d : Nat) :
    fromBEBytes (l ++ [d]) = fromBEBytes l * 256 + d := by
  simp [fromBEBytes, List.foldl_append]

theorem fromBEBytes_toBEBytes (w : Nat) : ∀ x : Nat, x < 256 ^ w →
    fromBEBytes (toBEBytes w x) = x := by
  induction w with
  | zero =>
    intro x hx
    simp only [pow_zero, Nat.lt_one_iff] at hx
    subst hx
    rfl
  | succ w ih =>
    intro x hx
    have hdiv : x / 256 < 256 ^ w := by
      rw [Nat.div_lt_iff_lt_mul (by norm_num : 0 < 256)]
      calc x < 256 ^ (w + 1) := hx
        _ = 256 ^ w * 256 := by ring
    rw [toBEBytes, fromBEBytes_concat, ih _ hdiv]
    omega

theorem toBEBytes_fromBEBytes (w : Nat) : ∀ l : List Nat, l.length = w →
    (∀ d ∈ l, d < 256) → toBEBytes w (fromBEBytes l) = l := by
  induction w with
  | zero =>
    intro l hl _
    rw [List.length_eq_zero] at hl
    subst hl
    rfl
  | succ w ih =>
    intro l hl hb
    rcases List.eq_nil_or_concat l with rfl | ⟨l2, d, rfl⟩
    · simp at hl
    · simp only [List.concat_eq_append] at hl hb ⊢
      have hd : d < 256 := hb d (by simp)
      have hl2 : l2.length = w := by
        simpa using hl
      rw [fromBEBytes_concat, toBEBytes]
      have hq : (fromBEBytes l2 * 256 + d) / 256 = fromBEBytes l2 := by omega
      have hr : (fromBEBytes l2 * 256 + d) % 256 = d := by omega
      rw [hq, hr, ih l2 hl2 (fun d2 hd2 => hb d2 (by simp [hd2]))]

theorem lexCompare_append (u : List Nat) : ∀ (v x y : List Nat), u.length = v.length →
    lexCompare (u ++ x) (v ++ y) = (lexCompare u v).then (lexCompare x y) := by
  induction u with
  | nil =>
    intro v x y h
    have hv : v = [] := by
      rw [List.length_nil] at h
      exact (List.length_eq_zero.mp h.symm)
    subst hv
    simp [lexCompare, ordering_eq_then]
  | cons a u2 ih =>
    intro v x y h
    cases v with
    | nil => simp at h
    | cons b v2 =>
      simp only [List.length_cons, Nat.succ_inj] at h
      simp only [List.cons_append, lexCompare, List.append_eq]
      rw [ih v2 x y h, ordering_then_assoc]

theorem cmpc_nat_divmod (x y : Nat) :
    cmpc x y = (cmpc (x / 256) (y / 256)).then (cmpc (x % 256) (y % 256)) := by
  rcases cmpc_cases (x / 256) (y / 256) with ⟨h, h2⟩ | ⟨h, h2⟩ | ⟨h, h2⟩ <;> rw [h]
  · rw [ordering_lt_then]
    have : x < y := by omega
    rcases cmpc_cases x y with ⟨g, g2⟩ | ⟨g, g2⟩ | ⟨g, g2⟩ <;> [exact g; omega; omega]
  · rw [ordering_eq_then]
    rcases cmpc_cases (x % 256) (y % 256) with ⟨g, g2⟩ | ⟨g, g2⟩ | ⟨g, g2⟩ <;> rw [g] <;>
      rcases cmpc_cases x y with ⟨f, f2⟩ | ⟨f, f2⟩ | ⟨f, f2⟩ <;> [exact f; omega; omega;
        omega; exact f; omega; omega; omega; exact f]
  · rw [ordering_gt_then]
    have : y < x := by omega
    rcases cmpc_cases x y with ⟨g, g2⟩ | ⟨g, g2⟩ | ⟨g, g2⟩ <;> [omega; omega; exact g]

theorem lexCompare_toBEBytes (w : Nat) : ∀ x y : Nat, x < 256 ^ w → y < 256 ^ w →
    lexCompare (toBEBytes w x) (toBEBytes w y) = cmpc x y := by
  induction w with
  | zero =>
    intro x y hx hy
    simp only [pow_zero, Nat.lt_one_iff] at hx hy
    subst hx
    subst hy
    rfl
  | succ w ih =>
    intro x y hx hy
    have hxd : x / 256 < 256 ^ w := by
      rw [Nat.div_lt_iff_lt_mul (by norm_num : 0 < 256)]
      calc x < 256 ^ (w + 1) := hx
        _ = 256 ^ w * 256 := by ring
    have hyd : y / 256 < 256 ^ w := by
      rw [Nat.div_lt_iff_lt_mul (by norm_num : 0 < 256)]
      calc y < 256 ^ (w + 1) := hy
        _ = 256 ^ w * 256 := by ring
    rw [toBEBytes, toBEBytes,
      lexCompare_append _ _ _ _ (by rw [toBEBytes_length, toBEBytes_length]),
      ih _ _ hxd hyd]
    have hsingle : lexCompare [x % 256] [y % 256] = cmpc (x % 256) (y % 256) := by
      simp [lexCompare, ordering_then_eq_right]
    rw [hsingle, ← cmpc_nat_divmod]

theorem pow4_eq : (256 : Nat) ^ 4 = U32LIM := by norm_num [U32LIM]

theorem pow8_eq : (256 : Nat) ^ 8 = U64LIM := by norm_num [U64LIM]

/-- C5: for all wall-clock timestamps (fields within their `u32`/`u64`
ranges), comparing two timestamps under the derived total order gives the
same result as comparing their 16-byte encodings under unsigned
byte-lexicographic comparison. -/
theorem to_bytes_order_preserving (a b : Timestamp Nat)
    (ha1 : a.epoch < U32LIM) (ha2 : a.time < U64LIM) (ha3 : a.count < U32LIM)
    (hb1 : b.epoch < U32LIM) (hb2 : b.time < U64LIM) (hb3 : b.count < U32LIM) :
    timestampCmp a b = lexCompare a.to_bytes b.to_bytes := by
  unfold Timestamp.to_bytes timestampCmp
  rw [List.append_assoc, List.append_assoc,
    lexCompare_append _ _ _ _ (by rw [toBEBytes_length, toBEBytes_length]),
    lexCompare_append _ _ _ _ (by rw [toBEBytes_length, toBEBytes_length]),
    lexCompare_toBEBytes 4 _ _ (by rw [pow4_eq]; exact ha1) (by rw [pow4_eq]; exact hb1),
    lexCompare_toBEBytes 8 _ _ (by rw [pow8_eq]; exact ha2) (by rw [pow8_eq]; exact hb2),
    lexCompare_toBEBytes 4 _ _ (by rw [pow4_eq]; exact ha3) (by rw [pow4_eq]; exact hb3)]

/-- C5 witness. -/
theorem to_bytes_order_preserving_witness :
    (({ epoch := 1, time := 70000, count := 3 } : Timestamp Nat).epoch < U32LIM ∧
      ({ epoch := 1, time := 70000, count := 3 } : Timestamp Nat).time < U64LIM ∧
      ({ epoch := 1, time := 70000, count := 3 } : Timestamp Nat).count < U32LIM ∧
      ({ epoch := 1, time := 2, count := 4294967295 } : Timestamp Nat).epoch < U32LIM ∧
      ({ epoch := 1, time := 2, count := 4294967295 } : Timestamp Nat).time < U64LIM ∧
      ({ epoch := 1, time := 2, count := 4294967295 } : Timestamp Nat).count < U32LIM) ∧
    timestampCmp { epoch := 1, time := 70000, count := 3 }
        { epoch := 1, time := 2, count := 4294967295 }
      = lexCompare ({ epoch := 1, time := 70000, count := 3 } : Timestamp Nat).to_bytes
          ({ epoch := 1, time := 2, count := 4294967295 } : Timestamp Nat).to_bytes :=
  ⟨by refine ⟨by decide, by decide, by decide, by decide, by decide, by decide⟩,
    to_bytes_order_preserving { epoch := 1, time := 70000, count := 3 }
      { epoch := 1, time := 2, count := 4294967295 }
      (by decide) (by decide) (by decide) (by decide) (by decide) (by decide)⟩

/-- C6: for every wall-clock timestamp (fields within their `u32`/`u64`
ranges), `to_bytes` produces exactly 16 bytes laid out big-endian as
`epoch:u32 ‖ time:u64 ‖ count:u32`, and `from_bytes` decodes them back to
the original timestamp. -/
theorem from_bytes_to_bytes_round_trip (t : Timestamp Nat)
    (h1 : t.epoch < U32LIM) (h2 : t.time < U64LIM) (h3 : t.count < U32LIM) :
    Timestamp.from_bytes t.to_bytes = t ∧ t.to_bytes.length = 16 := by
  constructor
  · unfold Timestamp.to_bytes Timestamp.from_bytes
    rw [List.append_assoc]
    have e4 : (toBEBytes 4 t.epoch).length = 4 := toBEBytes_length 4 _
    have t8 : (toBEBytes 8 t.time).length = 8 := toBEBytes_length 8 _
    have htake : (toBEBytes 4 t.epoch ++ (toBEBytes 8 t.time ++ toBEBytes 4 t.count)).take 4
        = toBEBytes 4 t.epoch := List.take_left' e4
    have hdrop : (toBEBytes 4 t.epoch ++ (toBEBytes 8 t.time ++ toBEBytes 4 t.count)).drop 4
        = toBEBytes 8 t.time ++ toBEBytes 4 t.count := List.drop_left' e4
    have htake8 : (toBEBytes 8 t.time ++ toBEBytes 4 t.count).take 8
        = toBEBytes 8 t.time := List.take_left' t8
    have hdrop8 : (toBEBytes 8 t.time ++ toBEBytes 4 t.count).drop 8
        = toBEBytes 4 t.count := List.drop_left' t8
    have hdrop12 : (toBEBytes 4 t.epoch ++ (toBEBytes 8 t.time ++ toBEBytes 4 t.count)).drop 12
        = toBEBytes 4 t.count := by
      have := List.drop_drop 8 4 (toBEBytes 4 t.epoch ++ (toBEBytes 8 t.time ++ toBEBytes 4 t.count))
      rw [hdrop, hdrop8] at this
      rw [← this]
    rw [htake, hdrop, htake8, hdrop12,
      fromBEBytes_toBEBytes 4 _ (by rw [pow4_eq]; exact h1),
      fromBEBytes_toBEBytes 8 _ (by rw [pow8_eq]; exact h2),
      fromBEBytes_toBEBytes 4 _ (by rw [pow4_eq]; exact h3)]
  · simp [Timestamp.to_bytes, toBEBytes_length]

/-- C6 witness. -/
theorem from_bytes_to_bytes_round_trip_witness :
    (({ epoch := 7, time := 123456789, count := 42 } : Timestamp Nat).epoch < U32LIM ∧
      ({ epoch := 7, time := 123456789, count := 42 } : Timestamp Nat).time < U64LIM ∧
      ({ epoch := 7, time := 123456789, count := 42 } : Timestamp Nat).count < U32LIM) ∧
    (Timestamp.from_bytes ({ epoch := 7, time := 123456789, count := 42 } : Timestamp Nat).to_bytes
        = { epoch := 7, time := 123456789, count := 42 } ∧
      ({ epoch := 7, time := 123456789, count := 42 } : Timestamp Nat).to_bytes.length = 16) :=
  ⟨⟨by decide, by decide, by decide⟩,
    from_bytes_to_bytes_round_trip { epoch := 7, time := 123456789, count := 42 }
      (by decide) (by decide) (by decide)⟩

/-- C10: for every 16-byte string, decoding it with `from_bytes` (which is
total and never fails) and re-encoding with `to_bytes` reproduces the bytes
exactly, so the codec is a bijection between 16-byte keys and in-range
wall-clock timestamps. -/
theorem to_bytes_from_bytes_id (b : List Nat) (hl : b.length = 16)
    (hb : ∀ d ∈ b, d < 256) :
    (Timestamp.from_bytes b).to_bytes = b := by
  unfold Timestamp.from_bytes Timestamp.to_bytes
  rw [toBEBytes_fromBEBytes 4 (b.take 4) (by simp [hl])
      (fun d hd => hb d (List.take_subset 4 b hd)),
    toBEBytes_fromBEBytes 8 ((b.drop 4).take 8) (by simp [hl])
      (fun d hd => hb d (List.drop_subset 4 b (List.take_subset 8 _ hd))),
    toBEBytes_fromBEBytes 4 (b.drop 12) (by simp [hl])
      (fun d hd => hb d (List.drop_subset 12 b hd))]
  have h1 : (b.drop 4).take 8 ++ (b.drop 4).drop 8 = b.drop 4 := List.take_append_drop 8 _
  have h2 : (b.drop 4).drop 8 = b.drop 12 := by
    rw [List.drop_drop]
  rw [h2] at h1
  rw [List.append_assoc, h1, List.take_append_drop]

/-- C10 witness. -/
theorem to_bytes_from_bytes_id_witness :
    ([0, 0, 0, 9, 1, 2, 3, 4, 5, 6, 7, 255, 0, 0, 1, 77].length = 16 ∧
      ∀ d ∈ [0, 0, 0, 9, 1, 2, 3, 4, 5, 6, 7, 255, 0, 0, 1, 77], d < 256) ∧
    (Timestamp.from_bytes [0, 0, 0, 9, 1, 2, 3, 4, 5, 6, 7, 255, 0, 0, 1, 77]).to_bytes
      = [0, 0, 0, 9, 1, 2, 3, 4, 5, 6, 7, 255, 0, 0, 1, 77] :=
  ⟨⟨by decide, by decide⟩,
    to_bytes_from_bytes_id [0, 0, 0, 9, 1, 2, 3, 4, 5, 6, 7, 255, 0, 0, 1, 77]
      (by decide) (by decide)⟩
